import Mathlib

/-!
Shallow embedding of src/ddlgenerator/ddlgenerator.py (ddl-generator).

The repository ships one source file, ddlgenerator.py.  Its helper modules
ddlgenerator.typehelpers and ddlgenerator.reshape are referenced but absent
from src/; the handful of helper functions the embedded code calls
(coerce_to_specific, best_coercable, is_scalar, clean_key_name and the
flat-population case of unnest_children) are modelled from the spec, each
with a doc comment starting with the words Modelled from the spec.
Everything else is translated directly from ddlgenerator.py.

Modelling conventions:
  - Python values appearing in record populations are embedded as the
    inductive type PValue.  Populations reaching Table._determine_types are
    flat (only scalars or null), per the Shape Normalizer result guarantee
    of the spec, so PValue has only scalar constructors plus vNone; the
    th.is_scalar fallback branch of _determine_types (lines 326-328) is
    therefore never triggered in the embedding.
  - Python equality (used by set(), in, dict lookup) is modelled by
    structural equality on PValue.  Cross-type Python equalities such as
    True == 1 are not modelled.
  - Machine-level concerns (file IO at os.path.isfile, logging) are out of
    scope: inputs are either in-memory populations or raw text that is not
    an existing file path, exactly the branch the cited code exercises.
-/

deriving instance DecidableEq for Except

/-- A decoded Python scalar value as it appears in a record population:
booleans, integers, exact decimals (mantissa and scale, denoting
m / 10 ^ scale), datetimes (carried by their textual rendering, since the
datetime library is an external collaborator), strings, and None. -/
inductive PValue where
  | vNone
  | vBool (b : Bool)
  | vInt (n : Int)
  | vDec (m : Int) (scale : Nat)
  | vDateTime (txt : String)
  | vStr (s : String)
deriving DecidableEq, Repr

/-- The closed set of inferred scalar kinds, mirroring the spec ranking
boolean < integer < decimal < datetime < text (most to least specific). -/
inductive Kind where
  | kBool
  | kInt
  | kDec
  | kDateTime
  | kText
deriving DecidableEq, Repr

def Kind.rank : Kind → Nat
  | .kBool => 0
  | .kInt => 1
  | .kDec => 2
  | .kDateTime => 3
  | .kText => 4

def maxKind (a b : Kind) : Kind :=
  if a.rank ≤ b.rank then b else a

/-- The single quote character, built by code point to keep source text clean. -/
def squote : String := String.singleton (Char.ofNat 39)

/-- Lower-case an ASCII letter (model of Python str.lower for ASCII input). -/
def charLower (c : Char) : Char :=
  if 65 ≤ c.toNat ∧ c.toNat ≤ 90 then Char.ofNat (c.toNat + 32) else c

def strLower (s : String) : String :=
  String.mk (s.toList.map charLower)

def isAsciiDigit (c : Char) : Bool :=
  48 ≤ c.toNat && c.toNat ≤ 57

def digitsToNat (cs : List Char) : Nat :=
  cs.foldl (fun a c => a * 10 + (c.toNat - 48)) 0

def allDigits (cs : List Char) : Bool :=
  !cs.isEmpty && cs.all isAsciiDigit

/-- Model of Python int(s) on the strings the embedding feeds it: an optional
minus sign followed by one or more ASCII digits; anything else fails. -/
def parseIntStr (s : String) : Option Int :=
  match s.toList with
  | '-' :: rest => if allDigits rest then some (-(digitsToNat rest : Int)) else none
  | cs => if allDigits cs then some (digitsToNat cs) else none

/-- Model of Decimal(s) on plain decimal-point forms: an optional minus sign,
a digit run, a point, and a digit run (one of the two runs may be empty but
not both).  Returns mantissa and scale. -/
def parseDecCore (cs : List Char) : Option (Nat × Nat) :=
  match cs.splitOn '.' with
  | [a, b] =>
      if (a.all isAsciiDigit && b.all isAsciiDigit) && (!a.isEmpty || !b.isEmpty) then
        some (digitsToNat (a ++ b), b.length)
      else none
  | _ => none

def parseDecStr (s : String) : Option (Int × Nat) :=
  match s.toList with
  | '-' :: rest => (parseDecCore rest).map (fun p => (-(p.1 : Int), p.2))
  | cs => (parseDecCore cs).map (fun p => ((p.1 : Int), p.2))

def padZeros (s : String) (w : Nat) : String :=
  String.mk (List.replicate (w - s.length) '0') ++ s

/-- Textual form of an exact decimal, as Python str(Decimal) renders plain
decimal-point forms. -/
def decRender (m : Int) (scale : Nat) : String :=
  if scale = 0 then toString m
  else
    let a := m.natAbs
    let base := 10 ^ scale
    (if m < 0 then "-" else "") ++ toString (a / base) ++ "." ++
      padZeros (toString (a % base)) scale

/-- Model of Python str() on embedded scalar values. -/
def pyStr : PValue → String
  | .vNone => "None"
  | .vBool b => if b then "True" else "False"
  | .vInt n => toString n
  | .vDec m scale => decRender m scale
  | .vDateTime txt => txt
  | .vStr s => s

/-- Recognized boolean-literal tokens, from the spec (case-insensitive
true/false/yes/no/1/0 style tokens). -/
def boolTokenVal (s : String) : Option Bool :=
  let t := strLower s
  if t = "true" ∨ t = "yes" ∨ t = "1" then some true
  else if t = "false" ∨ t = "no" ∨ t = "0" then some false
  else none

/-- Modelled from the spec: th.coerce_to_specific (ddlgenerator.typehelpers,
absent from src/), the Scalar Coercer of spec section 4.1.  A string is
tried as a boolean literal, then as an integer, then as an exact decimal,
then as a datetime, else left as text; a native non-string value is
accepted as-is; the step never fails.  The datetime stage is the permissive
external parser (dateutil), an external collaborator modelled at its
interface as the parameter dtp, which returns the rendered datetime for any
string it accepts and nothing otherwise. -/
def coerce_to_specific (dtp : String → Option String) : PValue → PValue
  | .vStr s =>
      match boolTokenVal s with
      | some b => .vBool b
      | none =>
          match parseIntStr s with
          | some n => .vInt n
          | none =>
              match parseDecStr s with
              | some p => .vDec p.1 p.2
              | none =>
                  match dtp s with
                  | some r => .vDateTime r
                  | none => .vStr s
  | v => v

def kindOf : PValue → Kind
  | .vNone => .kText
  | .vBool _ => .kBool
  | .vInt _ => .kInt
  | .vDec _ _ => .kDec
  | .vDateTime _ => .kDateTime
  | .vStr _ => .kText

/-- The most specific kind a value can take, per the Scalar Coercer run
with the external datetime parser dtp. -/
def specificKind (dtp : String → Option String) (v : PValue) : Kind :=
  kindOf (coerce_to_specific dtp v)

/-- The representative kind of a column: the least specific kind required to
cover every value (spec section 4.2); text for an empty population. -/
def unifiedKind (dtp : String → Option String) (nn : List PValue) : Kind :=
  match nn with
  | [] => .kText
  | _ => nn.foldl (fun a v => maxKind a (specificKind dtp v)) .kBool

/-- Total significant digits of a numeric value (non-numeric values
contribute zero); the scale is forced below the precision so the declared
type can hold the value exactly. -/
def decPrecision : PValue → Nat
  | .vInt n => (toString n.natAbs).length
  | .vDec m scale => max (toString m.natAbs).length scale
  | _ => 0

def decScale : PValue → Nat
  | .vDec _ scale => scale
  | _ => 0

/-- The non-null values of a column, the ones the spec excludes from type
ranking. -/
def nonNull (vs : List PValue) : List PValue :=
  vs.filter (fun v => v ≠ PValue.vNone)

/-- The longest Python stringification among the values (first maximum on
ties, as Python max does). -/
def longestStr (nn : List PValue) : String :=
  nn.foldl (fun acc v => if acc.length < (pyStr v).length then pyStr v else acc) ""

/-- Modelled from the spec: th.best_coercable (ddlgenerator.typehelpers,
absent from src/), the Type Unifier sample of spec section 4.2.  Null values
are excluded from ranking; the returned sample has the representative kind
of the population.  For text the sample is a stringification of maximal
observed length; for decimal the sample carries the maximum observed
precision and scale; for the remaining kinds only the type of the sample is
consumed downstream, so a canonical inhabitant is returned.  An all-null or
empty population yields a text sample of zero width, the spec edge case. -/
def best_coercable (dtp : String → Option String) (values : List PValue) : PValue :=
  match unifiedKind dtp (nonNull values) with
  | .kBool => .vBool true
  | .kInt => .vInt 0
  | .kDateTime => .vDateTime ""
  | .kDec =>
      let coerced := (nonNull values).map (coerce_to_specific dtp)
      let p := coerced.foldl (fun a v => max a (decPrecision v)) 1
      let s := coerced.foldl (fun a v => max a (decScale v)) 0
      .vDec ((10 : Int) ^ (p - 1)) s
  | .kText => .vStr (longestStr (nonNull values))

/-- The SQL column types the source hands to sqlalchemy (lines 336-344):
DECIMAL with precision and scale, unbounded Text, bounded String with a
length, and the types2sa mapping for datetime, integer and boolean. -/
inductive SAType where
  | sDECIMAL (p s : Nat)
  | sText
  | sString (n : Nat)
  | sDateTime
  | sInteger
  | sBoolean
deriving DecidableEq, Repr

/-- Column type selection, translated from _determine_types lines 334-344:
the best-coercable sample decides the branch (Decimal, then str, then the
types2sa lookup). -/
def colSAType (dtp : String → Option String) (varying_length_text : Bool)
    (values : List PValue) : SAType :=
  match best_coercable dtp values with
  | .vDec m scale => .sDECIMAL (decPrecision (.vDec m scale)) scale
  | .vStr s => if varying_length_text then .sText else .sString s.length
  | .vDateTime _ => .sDateTime
  | .vInt _ => .sInteger
  | .vBool _ => .sBoolean
  | .vNone => .sText


/-- An ordered field-to-value mapping, one decoded record.  The flag records
whether the Python object is an OrderedDict: _determine_types (line 322)
sorts the keys of any row that is not one. -/
structure PRow where
  fields : List (String × PValue)
  isOrderedDict : Bool
deriving DecidableEq, Repr

/-- Lexicographic comparison of character lists by code point, the order
Python sorted() uses on str keys. -/
def lexLeb : List Char → List Char → Bool
  | [], _ => true
  | _ :: _, [] => false
  | c :: cs, d :: ds =>
      if c.toNat < d.toNat then true
      else if d.toNat < c.toNat then false
      else lexLeb cs ds

def strLeb (a b : String) : Bool :=
  lexLeb a.toList b.toList

/-- Insertion sort of strings, modelling Python sorted() on str keys. -/
def insertSorted (x : String) : List String → List String
  | [] => [x]
  | y :: ys => if strLeb x y then x :: y :: ys else y :: insertSorted x ys

def sortStrs (l : List String) : List String :=
  l.foldr insertSorted []

/-- The key sequence _determine_types iterates for one row (lines 321-323):
row order for an OrderedDict, sorted order otherwise. -/
def rowKeys (r : PRow) : List String :=
  let ks := r.fields.map Prod.fst
  if r.isOrderedDict then ks else sortStrs ks

/-- Python dict lookup row[k]: the value of the first field named k. -/
def rowLookup (r : PRow) (k : String) : Option PValue :=
  (r.fields.find? (fun p => p.1 == k)).map Prod.snd

/-- Lookup in an ordered association list keyed by strings (the model of
OrderedDict access used for columns, satypes, and the per-column flags). -/
def lookupStr {α : Type} (l : List (String × α)) (k : String) : Option α :=
  (l.find? (fun p => p.1 == k)).map Prod.snd

/-- Append one observed value to the ordered columns accumulator: extend the
entry of key k if present, else add a new entry at the end (the model of
``self.columns[k].append(v)`` with first-seen insertion order). -/
def odAppend (cols : List (String × List PValue)) (k : String) (v : PValue) :
    List (String × List PValue) :=
  match cols with
  | [] => [(k, [v])]
  | (k0, vs) :: rest =>
      if k0 = k then (k0, vs ++ [v]) :: rest else (k0, vs) :: odAppend rest k v

/-- One iteration of the source inner loop (lines 324-332): look the key up
in the row and append the observed value to its column. -/
def colStep (r : PRow) (c : List (String × List PValue)) (k : String) :
    List (String × List PValue) :=
  match rowLookup r k with
  | some v => odAppend c k v
  | none => c

/-- Fold one row into the columns accumulator, iterating its key sequence as
the source inner loop does (lines 324-332). -/
def processRow (cols : List (String × List PValue)) (r : PRow) :
    List (String × List PValue) :=
  (rowKeys r).foldl (colStep r) cols

/-- The observed-values-per-column table of _determine_types (lines 319-332),
an ordered mapping in first-seen key order. -/
def collectColumns (rows : List PRow) : List (String × List PValue) :=
  rows.foldl processRow []

/-- The per-column inference state _determine_types fills in
(columns, satypes, pytypes, is_unique, is_nullable); comments are omitted
since flat populations never trigger the nested-value fallback. -/
structure TypeInfo where
  columns : List (String × List PValue)
  satypes : List (String × SAType)
  pytypes : List (String × Kind)
  is_unique : List (String × Bool)
  is_nullable : List (String × Bool)
deriving DecidableEq, Repr

/-- Translation of Table._determine_types (lines 311-347).  The uniqueness
flag mirrors ``uniques and (len(set(col)) == len(col))`` via dedup; the
nullability flag mirrors ``len(col) < rowcount or None in col``. -/
def determine_types (dtp : String → Option String) (rows : List PRow)
    (varying_length_text uniques : Bool) : TypeInfo :=
  let columns := collectColumns rows
  let rowcount := rows.length
  { columns := columns
    satypes := columns.map (fun kv => (kv.1, colSAType dtp varying_length_text kv.2))
    pytypes := columns.map (fun kv => (kv.1, kindOf (best_coercable dtp kv.2)))
    is_unique := columns.map
      (fun kv => (kv.1, uniques && (kv.2.dedup.length == kv.2.length)))
    is_nullable := columns.map
      (fun kv => (kv.1, decide (kv.2.length < rowcount) || kv.2.contains PValue.vNone)) }

/-- The first-seen order of fields across the population, written from the
words of the spec (union across rows, preserving first-seen order); used to
compare the generated column order against the spec notion. -/
def firstSeenFieldOrder (rows : List PRow) : List String :=
  rows.foldl
    (fun acc r =>
      r.fields.foldl (fun a kv => if a.contains kv.1 then a else a ++ [kv.1]) acc)
    []

/-- A decoder result: Python deserializers may yield a plain string (logged
and skipped by the loop) or a record population. -/
inductive PyData where
  | pstr (s : String)
  | prows (rows : List PRow)
deriving DecidableEq, Repr

/-- Input to Table construction: raw text (the non-file string branch of
_load_data) or native in-memory data. -/
inductive PyInput where
  | inStr (s : String)
  | inData (rows : List PRow)
deriving DecidableEq, Repr

/-- The error exits of the embedded code: IOError at line 164, SyntaxError at
lines 166 and 170, KeyError and NotImplementedError in _dialect
(lines 230 and 233), and a conversion failure inside _prep_datum standing
for the exceptions Python value constructors raise there. -/
inductive TblErr where
  | filenameNotFound
  | unableToInterpret
  | noData
  | noDialect
  | unknownDialect (d : String)
  | convError
deriving DecidableEq, Repr

/-- Model of Python 3 regex whitespace for str patterns: exactly the
characters Py_UNICODE_ISSPACE accepts (the ASCII range tab through carriage
return and the space, the file/group/record/unit separators x1c-x1f, the
next-line character x85, the no-break space xa0, and the Unicode space
separators x1680, x2000-x200a, x2028, x2029, x202f, x205f and x3000). -/
def isPyWs (c : Char) : Bool :=
  let n := c.toNat
  (9 ≤ n && n ≤ 13) || (28 ≤ n && n ≤ 31) || n == 32 || n == 133 || n == 160 ||
  n == 5760 || (8192 ≤ n && n ≤ 8202) || n == 8232 || n == 8233 ||
  n == 8239 || n == 8287 || n == 12288

def plainNamePart (cs : List Char) : Bool :=
  !cs.isEmpty && cs.all (fun c => !isPyWs c && c ≠ ',')

/-- Translation of the class pattern at line 127 under re.search semantics:
the anchored pattern matches the whole text, or the whole text minus one
trailing newline (the dollar anchor also matches just before a final
newline), and requires at least one character, none of which is whitespace
or a comma. -/
def looks_like_filename (s : String) : Bool :=
  let cs := s.toList
  plainNamePart cs || ((cs.getLast? == some '\n') && plainNamePart cs.dropLast)

/-- The decode attempt loop of _load_data (lines 149-161): each function is
tried in order; a raised exception (none) advances; a string result is
logged and advances; a truthy population is returned; a falsy one advances. -/
def attemptDecoders (funcs : List (String → Option PyData)) (s : String) :
    Option (List PRow) :=
  match funcs with
  | [] => none
  | f :: fs =>
      match f s with
      | some (.pstr _) => attemptDecoders fs s
      | some (.prows rows) =>
          if rows.isEmpty then attemptDecoders fs s else some rows
      | none => attemptDecoders fs s

/-- Translation of Table._load_data (lines 128-170) on the branch the cited
code exercises (the text is not the path of an existing file).  Text input
runs the decoder chain and, when every attempt fails, raises IOError when
the text looks like a filename and SyntaxError otherwise (lines 162-166);
native input is stored and rejected with SyntaxError when falsy
(lines 167-170). -/
def load_data (funcs : List (String → Option PyData)) :
    PyInput → Except TblErr (List PRow)
  | .inStr s =>
      match attemptDecoders funcs s with
      | some rows => .ok rows
      | none =>
          if looks_like_filename s then .error .filenameNotFound
          else .error .unableToInterpret
  | .inData rows => if rows.isEmpty then .error .noData else .ok rows

def isIdentChar (c : Char) : Bool :=
  (97 ≤ c.toNat && c.toNat ≤ 122) || isAsciiDigit c || c = '_'

/-- Modelled from the spec: reshape.clean_key_name (ddlgenerator.reshape,
absent from src/), the Key/Name Sanitizer of spec section 4.3: characters
illegal in SQL identifiers are replaced, case is collapsed, and emptiness
falls back to a placeholder.  Cross-column collision suffixing is not
modelled; no settled claim depends on it. -/
def clean_key_name (s : String) : String :=
  let cs := s.toList.map (fun c => if isIdentChar (charLower c) then charLower c else '_')
  if cs.isEmpty then "generated_name" else String.mk cs

/-- Modelled from the spec: reshape.clean_all_keys applies the sanitizer to
every field name of every row. -/
def clean_all_keys (rows : List PRow) : List PRow :=
  rows.map (fun r => ⟨r.fields.map (fun kv => (clean_key_name kv.1, kv.2)), r.isOrderedDict⟩)

/-- The class-level counter of line 172, used (line 188) but never assigned
anywhere else in the source. -/
def Table.table_index : Nat := 0

/-- The naming step of __init__ (line 188) as a state transition on the
class counter: the table name is the supplied one when truthy, else
generated_table followed by the counter value; the returned counter is the
value the class attribute holds after construction, which the source leaves
unchanged. -/
def genTableName (idx : Nat) (table_name : Option String) : String × Nat :=
  let truthy := match table_name with | none => false | some s => s ≠ ""
  ((if truthy then table_name.getD "" else "generated_table" ++ toString idx), idx)

/-- Modelled from the spec: reshape.unnest_children (ddlgenerator.reshape,
absent from src/), restricted to the flat populations PValue can express:
with no collection-valued fields the Shape Normalizer extracts no children,
leaves the population unchanged and passes the key name through
(spec section 4.4, steps 1-4 are vacuous on flat data). -/
def unnest_children (rows : List PRow) (pk_name : Option String) :
    List PRow × Option String × List (String × List PRow) × List (String × String) :=
  (rows, pk_name, [], [])

/-- The state a constructed Table holds (the fields of the Python object the
settled claims consult).  Child tables are absent because flat populations
produce none. -/
structure Table where
  table_name : String
  data : List PRow
  default_dialect : Option String
  info : TypeInfo
deriving DecidableEq, Repr

/-- Translation of Table.__init__ (lines 174-216) on flat populations:
load the data, derive and sanitize the table name, sanitize the keys,
unnest (a no-op here), and run _determine_types.  The dialect argument is
stored without any validation, exactly as the source does. -/
def Table.init (funcs : List (String → Option PyData))
    (dtp : String → Option String) (input : PyInput)
    (table_name : Option String) (default_dialect : Option String)
    (varying_length_text uniques : Bool) (pk_name : Option String)
    (table_index : Nat) : Except TblErr Table :=
  match load_data funcs input with
  | .error e => .error e
  | .ok rows0 =>
      let nm := clean_key_name (genTableName table_index table_name).1
      let rows1 := clean_all_keys rows0
      let u := unnest_children rows1 pk_name
      .ok { table_name := nm
            data := u.1
            default_dialect := default_dialect
            info := determine_types dtp u.1 varying_length_text uniques }

def dialect_names : List String :=
  ["drizzle", "firebird", "mssql", "mysql", "oracle", "postgresql", "sqlite", "sybase"]

/-- The keys of the mock_engines dict built at lines 93-96. -/
def mock_engines : List String :=
  ["postgresql", "sqlite", "mysql", "oracle", "mssql"]

/-- Translation of Table._dialect (lines 228-234), with Python string
truthiness: no truthy dialect anywhere raises KeyError; a dialect outside
the mock-engine set raises NotImplementedError. -/
def Table.dialect (t : Table) (dialect : Option String) : Except TblErr String :=
  let truthy : Option String → Bool := fun o =>
    match o with | none => false | some s => s ≠ ""
  if !truthy dialect && !truthy t.default_dialect then .error .noDialect
  else
    let d := if truthy dialect then dialect.getD "" else t.default_dialect.getD ""
    if mock_engines.contains d then .ok d else .error (.unknownDialect d)

/-- Translation of the class dict at lines 236-238: False for every dialect
name, then True for postgresql, sqlite, mysql and sybase. -/
def supports_if_exists (d : String) : Bool :=
  ["postgresql", "sqlite", "mysql", "sybase"].contains d

/-- Translation of Table._dropper (lines 239-242), including the doubled
space the template leaves when IF EXISTS is absent. -/
def Table.dropper (t : Table) (d : String) : String :=
  "DROP TABLE " ++ (if supports_if_exists d then "IF EXISTS" else "") ++ " " ++ t.table_name

def renderSAType : SAType → String
  | .sDECIMAL p s => "DECIMAL(" ++ toString p ++ ", " ++ toString s ++ ")"
  | .sText => "TEXT"
  | .sString n => "VARCHAR(" ++ toString n ++ ")"
  | .sDateTime => "TIMESTAMP"
  | .sInteger => "INTEGER"
  | .sBoolean => "BOOLEAN"

/-- The CREATE TABLE text is produced by the external renderer (sqlalchemy
CreateTable compiled against a mock engine); it is modelled at the interface
as a computable rendering of the inferred column list. -/
def Table.createStmt (t : Table) : String :=
  "CREATE TABLE " ++ t.table_name ++ " (" ++
    String.intercalate ", "
      (t.info.satypes.map (fun kv => kv.1 ++ " " ++ renderSAType kv.2)) ++ ")"

/-- Translation of Table.ddl (lines 245-258) for a childless table: the
dialect is resolved first, then the drop and create statements are emitted. -/
def Table.ddl (t : Table) (dialect : Option String) : Except TblErr String :=
  match t.dialect dialect with
  | .error e => .error e
  | .ok d => .ok (t.dropper d ++ ";\n" ++ t.createStmt ++ ";")

/-- The external permissive datetime parser (dateutil.parser.parse) applied
at line 265; it accepts only strings, so any non-string argument raises.
The string-level behavior is a parameter dp of the statements below. -/
def dateutil_parse (dp : String → Option String) : PValue → Option String
  | .vStr s => dp s
  | _ => none

/-- The conversion half of Table._prep_datum (lines 263-269): a datetime
column parses the datum, a boolean column coerces it, and every other
column applies the Python type constructor to str(datum). -/
def convert_datum (dp : String → Option String) (pytype : Kind) (datum : PValue) :
    Option PValue :=
  match pytype with
  | .kDateTime => (dateutil_parse dp datum).map .vDateTime
  | .kBool => some (coerce_to_specific dp datum)
  | .kInt => (parseIntStr (pyStr datum)).map .vInt
  | .kDec => (parseDecStr (pyStr datum)).map (fun p => .vDec p.1 p.2)
  | .kText => some (.vStr (pyStr datum))

/-- Model of str.replace applied at line 276: every single quote in the
value is doubled. -/
def doubleQuotes (s : String) : String :=
  String.mk (s.toList.foldr
    (fun c acc => if c = Char.ofNat 39 then Char.ofNat 39 :: Char.ofNat 39 :: acc else acc.cons c)
    [])

/-- The quoting half of Table._prep_datum (lines 270-278) composed with the
str() the caller applies at line 285: a datetime is wrapped in single quotes
(the _datetime_format dict of line 261 is empty, so the strftime branch is
dead), a string is wrapped in single quotes with embedded quotes doubled,
and anything else is rendered bare. -/
def quote_datum : PValue → String
  | .vDateTime txt => squote ++ txt ++ squote
  | .vStr s => squote ++ doubleQuotes s ++ squote
  | v => pyStr v

/-- Translation of Table._prep_datum (lines 262-278) returning the rendered
SQL literal; none stands for the exception a failed conversion raises. -/
def prep_datum (dp : String → Option String) (pytype : Kind) (datum : PValue) :
    Option String :=
  (convert_datum dp pytype datum).map quote_datum

/-- One INSERT statement (lines 283-286): column names joined from the row
keys in row order, values rendered by _prep_datum under the pytype recorded
for each column. -/
def Table.renderRow (dp : String → Option String) (t : Table) (r : PRow) :
    Except TblErr String :=
  let cols := String.intercalate ", " (r.fields.map Prod.fst)
  let vals := r.fields.mapM (fun kv =>
    match lookupStr t.info.pytypes kv.1 with
    | none => Except.error TblErr.convError
    | some k =>
        match prep_datum dp k kv.2 with
        | none => Except.error TblErr.convError
        | some s => Except.ok s)
  match vals with
  | .error e => .error e
  | .ok vs =>
      .ok ("INSERT INTO " ++ t.table_name ++ " (" ++ cols ++ ") VALUES (" ++
        String.intercalate ", " vs ++ ");")

/-- Translation of Table.inserts (lines 281-289) for a childless table: the
dialect is resolved first, then one INSERT statement per retained row. -/
def Table.inserts (dp : String → Option String) (t : Table) (dialect : Option String) :
    Except TblErr (List String) :=
  match t.dialect dialect with
  | .error e => .error e
  | .ok _ => t.data.mapM (t.renderRow dp)

/-- Translation of Table.sql (lines 292-300): the DDL, followed by the
INSERT statements when requested. -/
def Table.sql (dp : String → Option String) (t : Table) (dialect : Option String)
    (inserts : Bool) : Except TblErr String :=
  match t.ddl dialect with
  | .error e => .error e
  | .ok head =>
      if inserts then
        match t.inserts dp dialect with
        | .error e => .error e
        | .ok rows => .ok (String.intercalate "\n" (head :: rows))
      else .ok head

theorem lookupStr_cons {α : Type} (k0 : String) (v0 : α) (rest : List (String × α))
    (k : String) :
    lookupStr ((k0, v0) :: rest) k = if k0 = k then some v0 else lookupStr rest k := by
  by_cases h : k0 = k <;> simp [lookupStr, List.find?_cons, h]

theorem lookupStr_map {α β : Type} (f : String → α → β) (l : List (String × α))
    (k : String) :
    lookupStr (l.map (fun p => (p.1, f p.1 p.2))) k = (lookupStr l k).map (f k) := by
  induction l with
  | nil => rfl
  | cons p rest ih =>
      obtain ⟨k0, v0⟩ := p
      by_cases h : k0 = k
      · subst h
        simp [lookupStr_cons]
      · simp only [List.map_cons, lookupStr_cons, if_neg h]
        exact ih

theorem lookupStr_eq_some_of_mem {α : Type} (l : List (String × α))
    (hnd : (l.map Prod.fst).Nodup) (k : String) (v : α) (hm : (k, v) ∈ l) :
    lookupStr l k = some v := by
  induction l with
  | nil => cases hm
  | cons p rest ih =>
      obtain ⟨k0, v0⟩ := p
      simp only [List.map_cons, List.nodup_cons] at hnd
      rcases List.mem_cons.mp hm with h | h
      · cases h
        simp [lookupStr_cons]
      · have hk0 : k0 ≠ k := by
          intro he
          exact hnd.1 (he ▸ (List.mem_map.mpr ⟨(k, v), h, rfl⟩))
        rw [lookupStr_cons, if_neg hk0]
        exact ih hnd.2 h

theorem odAppend_mapFst (cols : List (String × List PValue)) (k : String) (v : PValue) :
    (odAppend cols k v).map Prod.fst =
      if k ∈ cols.map Prod.fst then cols.map Prod.fst else cols.map Prod.fst ++ [k] := by
  induction cols with
  | nil => simp [odAppend]
  | cons p rest ih =>
      obtain ⟨k0, vs⟩ := p
      by_cases h : k0 = k
      · subst h
        simp [odAppend]
      · have hne : ¬ (k = k0) := fun he => h he.symm
        simp only [odAppend, if_neg h, List.map_cons, List.mem_cons, ih]
        by_cases hm : k ∈ rest.map Prod.fst
        · simp [hm, hne]
        · simp [hm, hne]

theorem lookupStr_nil {α : Type} (k : String) :
    lookupStr ([] : List (String × α)) k = none := rfl

theorem lookupStr_odAppend_self (cols : List (String × List PValue)) (k : String)
    (v : PValue) :
    lookupStr (odAppend cols k v) k = some ((lookupStr cols k).getD [] ++ [v]) := by
  induction cols with
  | nil => simp [odAppend, lookupStr_cons, lookupStr_nil]
  | cons p rest ih =>
      obtain ⟨k0, vs⟩ := p
      by_cases h : k0 = k
      · simp only [odAppend, if_pos h, lookupStr_cons, if_pos h, Option.getD_some]
      · simp only [odAppend, if_neg h, lookupStr_cons, if_neg h, ih]

theorem lookupStr_odAppend_ne (cols : List (String × List PValue)) (k : String)
    (v : PValue) (k2 : String) (h : k2 ≠ k) :
    lookupStr (odAppend cols k v) k2 = lookupStr cols k2 := by
  have hk : k ≠ k2 := Ne.symm h
  induction cols with
  | nil => simp [odAppend, lookupStr_cons, lookupStr_nil, if_neg hk]
  | cons p rest ih =>
      obtain ⟨k0, vs⟩ := p
      by_cases h0 : k0 = k
      · have hne : k0 ≠ k2 := by rw [h0]; exact hk
        simp only [odAppend, if_pos h0, lookupStr_cons, if_neg hne]
      · simp only [odAppend, if_neg h0, lookupStr_cons, ih]

theorem odAppend_nodupFst (cols : List (String × List PValue)) (k : String) (v : PValue)
    (h : (cols.map Prod.fst).Nodup) : ((odAppend cols k v).map Prod.fst).Nodup := by
  rw [odAppend_mapFst]
  by_cases hm : k ∈ cols.map Prod.fst
  · simpa [hm] using h
  · simp only [if_neg hm]
    simp [List.nodup_append, h, hm]

theorem insertSorted_perm (x : String) (l : List String) :
    (insertSorted x l).Perm (x :: l) := by
  induction l with
  | nil => exact List.Perm.refl _
  | cons y ys ih =>
      rw [insertSorted]
      by_cases h : strLeb x y
      · rw [if_pos h]
      · rw [if_neg h]
        exact (ih.cons y).trans (List.Perm.swap x y ys)

theorem sortStrs_perm (l : List String) : (sortStrs l).Perm l := by
  induction l with
  | nil => exact List.Perm.refl _
  | cons a l ih =>
      have : sortStrs (a :: l) = insertSorted a (sortStrs l) := rfl
      rw [this]
      exact (insertSorted_perm a (sortStrs l)).trans (ih.cons a)

theorem mem_rowKeys (r : PRow) (k : String) :
    k ∈ rowKeys r ↔ k ∈ r.fields.map Prod.fst := by
  rw [rowKeys]
  by_cases h : r.isOrderedDict
  · simp [h]
  · simp only [h]
    simpa using (sortStrs_perm (r.fields.map Prod.fst)).mem_iff

theorem nodup_rowKeys (r : PRow) (h : (r.fields.map Prod.fst).Nodup) :
    (rowKeys r).Nodup := by
  rw [rowKeys]
  by_cases ho : r.isOrderedDict
  · simpa [ho] using h
  · simp only [ho]
    simpa using (sortStrs_perm (r.fields.map Prod.fst)).nodup_iff.mpr h

theorem rowLookup_isSome_iff (r : PRow) (k : String) :
    (rowLookup r k).isSome = true ↔ k ∈ r.fields.map Prod.fst := by
  rw [rowLookup]
  cases hf : List.find? (fun p => p.1 == k) r.fields with
  | none =>
      simp only [Option.map_none', Option.isSome_none, Bool.false_eq_true, false_iff]
      intro hm
      rcases List.mem_map.mp hm with ⟨p, hp, he⟩
      have : (List.find? (fun p => p.1 == k) r.fields).isSome = true :=
        List.find?_isSome.mpr ⟨p, hp, beq_iff_eq.mpr he⟩
      rw [hf] at this
      cases this
  | some p =>
      simp only [Option.map_some', Option.isSome_some, true_iff]
      have hp := List.find?_some hf
      have hmem := List.mem_of_find?_eq_some hf
      exact List.mem_map.mpr ⟨p, hmem, beq_iff_eq.mp hp⟩

theorem foldl_colStep_lookup (r : PRow) (col : String) :
    ∀ (keys : List String) (cols : List (String × List PValue)), keys.Nodup →
      lookupStr (keys.foldl (colStep r) cols) col =
        if col ∈ keys then
          match rowLookup r col with
          | some v => some ((lookupStr cols col).getD [] ++ [v])
          | none => lookupStr cols col
        else lookupStr cols col := by
  intro keys
  induction keys with
  | nil => intro cols _; simp
  | cons k ks ih =>
      intro cols hnd
      rcases List.nodup_cons.mp hnd with ⟨hk, hks⟩
      by_cases he : k = col
      · subst he
        have hnotin : k ∉ ks := hk
        rw [List.foldl_cons, ih _ hks, if_neg hnotin, if_pos (List.mem_cons_self k ks)]
        rw [colStep]
        cases hrl : rowLookup r k with
        | none => simp
        | some v => simp [lookupStr_odAppend_self]
      · rw [List.foldl_cons, ih _ hks]
        have hpres : lookupStr (colStep r cols k) col = lookupStr cols col := by
          rw [colStep]
          cases hrl : rowLookup r k with
          | none => rfl
          | some v => exact lookupStr_odAppend_ne _ _ _ _ (Ne.symm he)
        by_cases hc : col ∈ ks
        · rw [if_pos hc, if_pos (List.mem_cons_of_mem k hc)]
          cases hrl : rowLookup r col with
          | none => simp [hpres]
          | some v => simp [hpres]
        · have hnc : col ∉ k :: ks := by
            intro hx
            rcases List.mem_cons.mp hx with hx | hx
            · exact he hx.symm
            · exact hc hx
          rw [if_neg hc, if_neg hnc, hpres]

theorem processRow_lookup (r : PRow) (hnd : (r.fields.map Prod.fst).Nodup)
    (cols : List (String × List PValue)) (col : String) :
    lookupStr (processRow cols r) col =
      match rowLookup r col with
      | some v => some ((lookupStr cols col).getD [] ++ [v])
      | none => lookupStr cols col := by
  rw [processRow, foldl_colStep_lookup r col (rowKeys r) cols (nodup_rowKeys r hnd)]
  by_cases hm : col ∈ rowKeys r
  · rw [if_pos hm]
  · rw [if_neg hm]
    cases hrl : rowLookup r col with
    | none => rfl
    | some v =>
        exfalso
        apply hm
        apply (mem_rowKeys r col).mpr
        apply (rowLookup_isSome_iff r col).mp
        rw [hrl]
        rfl

/-- The values collected for one field across the population: one entry per
row that carries the field, in row order. -/
def colVals (rows : List PRow) (col : String) : List PValue :=
  rows.filterMap (fun r => rowLookup r col)

theorem foldl_processRow_getD (col : String) :
    ∀ (rows : List PRow), (∀ r ∈ rows, (r.fields.map Prod.fst).Nodup) →
      ∀ (cols : List (String × List PValue)),
        (lookupStr (rows.foldl processRow cols) col).getD [] =
          (lookupStr cols col).getD [] ++ colVals rows col := by
  intro rows
  induction rows with
  | nil => intro _ cols; simp [colVals]
  | cons r rest ih =>
      intro hnd cols
      have hr := hnd r (List.mem_cons_self r rest)
      have hrest : ∀ x ∈ rest, (x.fields.map Prod.fst).Nodup :=
        fun x hx => hnd x (List.mem_cons_of_mem r hx)
      rw [List.foldl_cons, ih hrest]
      have hcv : colVals (r :: rest) col =
          (rowLookup r col).toList ++ colVals rest col := by
        rw [colVals, colVals, List.filterMap_cons]
        cases rowLookup r col <;> simp
      rw [hcv]
      rw [processRow_lookup r hr cols col]
      cases hrl : rowLookup r col with
      | none => simp
      | some v => simp

theorem foldl_processRow_isSome (col : String) :
    ∀ (rows : List PRow), (∀ r ∈ rows, (r.fields.map Prod.fst).Nodup) →
      ∀ (cols : List (String × List PValue)),
        (lookupStr (rows.foldl processRow cols) col).isSome =
          ((lookupStr cols col).isSome || !(colVals rows col).isEmpty) := by
  intro rows
  induction rows with
  | nil => intro _ cols; simp [colVals]
  | cons r rest ih =>
      intro hnd cols
      have hr := hnd r (List.mem_cons_self r rest)
      have hrest : ∀ x ∈ rest, (x.fields.map Prod.fst).Nodup :=
        fun x hx => hnd x (List.mem_cons_of_mem r hx)
      rw [List.foldl_cons, ih hrest]
      rw [processRow_lookup r hr cols col]
      have hcv : colVals (r :: rest) col =
          (rowLookup r col).toList ++ colVals rest col := by
        rw [colVals, colVals, List.filterMap_cons]
        cases rowLookup r col <;> simp
      rw [hcv]
      cases hrl : rowLookup r col with
      | none => simp
      | some v => simp

theorem collect_lookup_eq (rows : List PRow)
    (hnd : ∀ r ∈ rows, (r.fields.map Prod.fst).Nodup) (col : String)
    (vs : List PValue) (h : lookupStr (collectColumns rows) col = some vs) :
    vs = colVals rows col := by
  have := foldl_processRow_getD col rows hnd []
  rw [collectColumns] at h
  rw [h] at this
  simpa using this

theorem processRow_nodupFst (cols : List (String × List PValue)) (r : PRow)
    (h : (cols.map Prod.fst).Nodup) : ((processRow cols r).map Prod.fst).Nodup := by
  rw [processRow]
  generalize rowKeys r = keys
  induction keys generalizing cols with
  | nil => exact h
  | cons k ks ih =>
      rw [List.foldl_cons]
      apply ih
      rw [colStep]
      cases rowLookup r k with
      | none => exact h
      | some v => exact odAppend_nodupFst cols k v h

theorem collect_nodupFst (rows : List PRow) :
    ((collectColumns rows).map Prod.fst).Nodup := by
  rw [collectColumns]
  have : ∀ (cols : List (String × List PValue)), (cols.map Prod.fst).Nodup →
      ((rows.foldl processRow cols).map Prod.fst).Nodup := by
    induction rows with
    | nil => intro cols h; exact h
    | cons r rest ih =>
        intro cols h
        rw [List.foldl_cons]
        exact ih _ (processRow_nodupFst cols r h)
  exact this [] (by simp)

theorem filterMap_length_lt {α β : Type} (f : α → Option β) (l : List α) :
    ((l.filterMap f).length < l.length) ↔ ∃ a ∈ l, f a = none := by
  induction l with
  | nil => simp
  | cons a rest ih =>
      rw [List.filterMap_cons]
      cases hf : f a with
      | none =>
          simp only [List.length_cons]
          constructor
          · intro _
            exact ⟨a, List.mem_cons_self a rest, hf⟩
          · intro _
            exact Nat.lt_succ_of_le (List.length_filterMap_le f rest)
      | some b =>
          simp only [List.length_cons, Nat.succ_lt_succ_iff, ih]
          constructor
          · rintro ⟨x, hx, hfx⟩
            exact ⟨x, List.mem_cons_of_mem a hx, hfx⟩
          · rintro ⟨x, hx, hfx⟩
            rcases List.mem_cons.mp hx with rfl | hx
            · rw [hf] at hfx; cases hfx
            · exact ⟨x, hx, hfx⟩

theorem contains_iff_mem_str (l : List String) (k : String) :
    l.contains k = true ↔ k ∈ l :=
  List.elem_iff

theorem foldl_colStep_mapFst (r : PRow) :
    ∀ (keys : List String) (cols : List (String × List PValue)),
      (∀ k ∈ keys, k ∈ r.fields.map Prod.fst) →
      (keys.foldl (colStep r) cols).map Prod.fst =
        keys.foldl (fun a k => if a.contains k then a else a ++ [k])
          (cols.map Prod.fst) := by
  intro keys
  induction keys with
  | nil => intro cols _; rfl
  | cons k ks ih =>
      intro cols hk
      have hkm : k ∈ r.fields.map Prod.fst := hk k (List.mem_cons_self k ks)
      have hks : ∀ x ∈ ks, x ∈ r.fields.map Prod.fst :=
        fun x hx => hk x (List.mem_cons_of_mem k hx)
      rw [List.foldl_cons, List.foldl_cons, ih _ hks]
      congr 1
      have hsome : (rowLookup r k).isSome = true := (rowLookup_isSome_iff r k).mpr hkm
      cases hrl : rowLookup r k with
      | none => rw [hrl] at hsome; cases hsome
      | some v =>
          rw [colStep, hrl, odAppend_mapFst]
          by_cases hm : k ∈ cols.map Prod.fst
          · rw [if_pos hm, if_pos ((contains_iff_mem_str _ _).mpr hm)]
          · rw [if_neg hm, if_neg (fun hc => hm ((contains_iff_mem_str _ _).mp hc))]

theorem processRow_mapFst (cols : List (String × List PValue)) (r : PRow)
    (hord : r.isOrderedDict = true) :
    (processRow cols r).map Prod.fst =
      r.fields.foldl (fun a kv => if a.contains kv.1 then a else a ++ [kv.1])
        (cols.map Prod.fst) := by
  rw [processRow]
  have hkeys : rowKeys r = r.fields.map Prod.fst := by
    rw [rowKeys]
    simp [hord]
  rw [hkeys, foldl_colStep_mapFst r _ cols (fun k hk => hk), List.foldl_map]

theorem collect_mapFst (rows : List PRow)
    (hord : ∀ r ∈ rows, r.isOrderedDict = true) :
    (collectColumns rows).map Prod.fst = firstSeenFieldOrder rows := by
  rw [collectColumns, firstSeenFieldOrder]
  have main : ∀ (rs : List PRow), (∀ r ∈ rs, r.isOrderedDict = true) →
      ∀ (cols : List (String × List PValue)),
      (rs.foldl processRow cols).map Prod.fst =
        rs.foldl
          (fun acc r =>
            r.fields.foldl (fun a kv => if a.contains kv.1 then a else a ++ [kv.1]) acc)
          (cols.map Prod.fst) := by
    intro rs
    induction rs with
    | nil => intro _ cols; rfl
    | cons r rest ih =>
        intro h cols
        rw [List.foldl_cons, List.foldl_cons,
          ih (fun x hx => h x (List.mem_cons_of_mem r hx))]
        rw [processRow_mapFst cols r (h r (List.mem_cons_self r rest))]
  have := main rows hord []
  simpa using this

theorem longestStr_length (nn : List PValue) :
    (longestStr nn).length = (nn.map (fun v => (pyStr v).length)).foldl max 0 := by
  have main : ∀ (l : List PValue) (acc : String),
      (l.foldl (fun acc v => if acc.length < (pyStr v).length then pyStr v else acc)
        acc).length =
        (l.map (fun v => (pyStr v).length)).foldl max acc.length := by
    intro l
    induction l with
    | nil => intro acc; rfl
    | cons v rest ih =>
        intro acc
        rw [List.foldl_cons, List.map_cons, List.foldl_cons, ih]
        congr 1
        by_cases h : acc.length < (pyStr v).length
        · rw [if_pos h]
          exact (Nat.max_eq_right (Nat.le_of_lt h)).symm
        · rw [if_neg h]
          exact (Nat.max_eq_left (Nat.le_of_not_lt h)).symm
  have h0 := main nn ""
  rw [longestStr]
  simpa using h0

theorem dedup_length_eq_iff (l : List PValue) :
    (l.dedup.length = l.length) ↔ l.Nodup := by
  constructor
  · intro h
    exact List.dedup_eq_self.mp ((List.dedup_sublist l).eq_of_length h)
  · intro h
    rw [List.dedup_eq_self.mpr h]

theorem lookupStr_mapVals {α β : Type} (g : α → β) (l : List (String × α))
    (k : String) :
    lookupStr (l.map (fun p => (p.1, g p.2))) k = (lookupStr l k).map g := by
  induction l with
  | nil => rfl
  | cons p rest ih =>
      obtain ⟨k0, v0⟩ := p
      by_cases h : k0 = k
      · subst h
        simp [lookupStr_cons]
      · simp only [List.map_cons, lookupStr_cons, if_neg h]
        exact ih

theorem mapVals_nodupFst {α β : Type} (g : α → β) (l : List (String × α))
    (h : (l.map Prod.fst).Nodup) :
    ((l.map (fun p => (p.1, g p.2))).map Prod.fst).Nodup := by
  have : (l.map (fun p => (p.1, g p.2))).map Prod.fst = l.map Prod.fst := by
    rw [List.map_map]
    rfl
  rw [this]
  exact h

/-- The maximum observed string length over the non-null values of a column,
the quantity the spec declares for bounded text columns. -/
def maxObservedLen (vs : List PValue) : Nat :=
  ((nonNull vs).map (fun v => (pyStr v).length)).foldl max 0

theorem best_coercable_text (dtp : String → Option String) (vs : List PValue)
    (h : kindOf (best_coercable dtp vs) = Kind.kText) :
    best_coercable dtp vs = .vStr (longestStr (nonNull vs)) := by
  rw [best_coercable] at h ⊢
  cases hu : unifiedKind dtp (nonNull vs) <;> simp_all [kindOf]

/-- C1 (counterexample): the claim says the unique flag tracks pairwise
distinctness of the NON-NULL observed values, but line 345 applies
len(set(...)) to all observed values, nulls included.  A column holding two
explicit nulls has an empty (hence vacuously pairwise-distinct) non-null
value list, yet its unique flag is false even with uniqueness tracking
enabled. -/
theorem c1_unique_flag_counterexample :
    lookupStr (determine_types (fun _ => none)
        [⟨[("a", PValue.vNone)], true⟩, ⟨[("a", PValue.vNone)], true⟩]
        false true).is_unique "a" = some false ∧
    lookupStr (determine_types (fun _ => none)
        [⟨[("a", PValue.vNone)], true⟩, ⟨[("a", PValue.vNone)], true⟩]
        false true).columns "a" = some [PValue.vNone, PValue.vNone] ∧
    List.Pairwise (fun x y => x ≠ y) (nonNull [PValue.vNone, PValue.vNone]) := by
  decide

/-- C1 (amended): when uniqueness tracking is enabled, the unique flag of a
column is true exactly when ALL of its observed values, nulls included, are
pairwise distinct; when tracking is disabled the flag is false for every
column. -/
theorem c1_unique_flag_amended (dtp : String → Option String)
    (rows : List PRow) (vlt u : Bool) (col : String)
    (vs : List PValue)
    (hmem : (col, vs) ∈ (determine_types dtp rows vlt u).columns) :
    lookupStr (determine_types dtp rows vlt u).is_unique col = some true ↔
      (u = true ∧ List.Pairwise (fun x y => x ≠ y) vs) := by
  have hcols : lookupStr (collectColumns rows) col = some vs :=
    lookupStr_eq_some_of_mem _ (collect_nodupFst rows) _ _ hmem
  have hlu : lookupStr (determine_types dtp rows vlt u).is_unique col =
      some (u && (vs.dedup.length == vs.length)) := by
    have h2 := lookupStr_mapVals
      (fun x : List PValue => u && (x.dedup.length == x.length))
      (collectColumns rows) col
    rw [hcols] at h2
    exact h2
  rw [hlu]
  constructor
  · intro hsome
    have hb : (u && (vs.dedup.length == vs.length)) = true := by
      injection hsome
    have hb2 : u = true ∧ (vs.dedup.length == vs.length) = true := by
      simpa using hb
    exact ⟨hb2.1, (dedup_length_eq_iff vs).mp (beq_iff_eq.mp hb2.2)⟩
  · rintro ⟨hu2, hnd⟩
    have hlen : (vs.dedup.length == vs.length) = true :=
      beq_iff_eq.mpr ((dedup_length_eq_iff vs).mpr hnd)
    rw [hu2, hlen]
    rfl

/-- C1 (witness for the amended theorem): a two-row population with distinct
integer values under uniques enabled is flagged unique. -/
theorem c1_unique_flag_amended_witness :
    lookupStr (determine_types (fun _ => none)
        [⟨[("a", PValue.vInt 1)], true⟩, ⟨[("a", PValue.vInt 2)], true⟩]
        false true).is_unique "a" = some true ↔
      (true = true ∧ List.Pairwise (fun x y => x ≠ y) [PValue.vInt 1, PValue.vInt 2]) :=
  c1_unique_flag_amended (fun _ => none) _ false true "a" _ (by decide)

/-- C2: a column is marked nullable exactly when some row of the population
is missing the field or holds an explicit null for it; in particular a
column is never nullable when every row supplies a non-null value
(translation of lines 346-347, with per-row field names assumed distinct as
Python dict keys are). -/
theorem c2_nullability (dtp : String → Option String) (rows : List PRow) (vlt u : Bool)
    (hnd : ∀ r ∈ rows, (r.fields.map Prod.fst).Nodup)
    (col : String) (vs : List PValue)
    (hmem : (col, vs) ∈ (determine_types dtp rows vlt u).columns) :
    lookupStr (determine_types dtp rows vlt u).is_nullable col = some true ↔
      ((∃ r ∈ rows, rowLookup r col = none) ∨
        (∃ r ∈ rows, rowLookup r col = some PValue.vNone)) := by
  have hcols : lookupStr (collectColumns rows) col = some vs :=
    lookupStr_eq_some_of_mem _ (collect_nodupFst rows) _ _ hmem
  have hvs : vs = colVals rows col := collect_lookup_eq rows hnd col vs hcols
  have hln : lookupStr (determine_types dtp rows vlt u).is_nullable col =
      some (decide (vs.length < rows.length) || vs.contains PValue.vNone) := by
    have h2 := lookupStr_mapVals
      (fun x : List PValue => decide (x.length < rows.length) || x.contains PValue.vNone)
      (collectColumns rows) col
    rw [hcols] at h2
    exact h2
  rw [hln]
  constructor
  · intro hsome
    have hb : (decide (vs.length < rows.length) || vs.contains PValue.vNone) = true := by
      injection hsome
    have hb2 : vs.length < rows.length ∨ vs.contains PValue.vNone = true := by
      rcases Bool.or_eq_true_iff.mp hb with h | h
      · exact Or.inl (of_decide_eq_true h)
      · exact Or.inr h
    rcases hb2 with h | h
    · left
      rw [hvs] at h
      exact (filterMap_length_lt _ rows).mp h
    · right
      have hm2 : PValue.vNone ∈ vs := List.elem_iff.mp h
      rw [hvs] at hm2
      exact List.mem_filterMap.mp hm2
  · rintro (⟨r, hr, hnone⟩ | ⟨r, hr, hsomev⟩)
    · have hlt : vs.length < rows.length := by
        rw [hvs]
        exact (filterMap_length_lt _ rows).mpr ⟨r, hr, hnone⟩
      have hd : decide (vs.length < rows.length) = true := decide_eq_true hlt
      rw [hd]
      rfl
    · have hm2 : PValue.vNone ∈ vs := by
        rw [hvs]
        exact List.mem_filterMap.mpr ⟨r, hr, hsomev⟩
      have hc : vs.contains PValue.vNone = true := List.elem_iff.mpr hm2
      rw [hc, Bool.or_true]

/-- C2 (witness): in a two-row population where only the first row carries
the field a, the column a is nullable because the second row misses it. -/
theorem c2_nullability_witness :
    lookupStr (determine_types (fun _ => none)
        [⟨[("a", PValue.vInt 1)], true⟩, ⟨[("b", PValue.vInt 2)], true⟩]
        false false).is_nullable "a" = some true ↔
      ((∃ r ∈ [PRow.mk [("a", PValue.vInt 1)] true, PRow.mk [("b", PValue.vInt 2)] true],
          rowLookup r "a" = none) ∨
        (∃ r ∈ [PRow.mk [("a", PValue.vInt 1)] true, PRow.mk [("b", PValue.vInt 2)] true],
          rowLookup r "a" = some PValue.vNone)) :=
  c2_nullability (fun _ => none) _ false false (by decide) "a" [PValue.vInt 1]
    (by decide)

/-- C3 (counterexample): the claim extends first-seen field order to rows of
any concrete ordered-mapping type, but line 322 sorts the keys of any row
that is not an OrderedDict instance.  A single non-OrderedDict row listing
field b before field a yields columns in sorted order a, b instead of the
first-seen order b, a. -/
theorem c3_column_order_counterexample :
    (determine_types (fun _ => none)
        [⟨[("b", PValue.vInt 1), ("a", PValue.vInt 2)], false⟩]
        false false).satypes.map Prod.fst = ["a", "b"] ∧
    firstSeenFieldOrder [⟨[("b", PValue.vInt 1), ("a", PValue.vInt 2)], false⟩] =
      ["b", "a"] ∧
    (["a", "b"] : List String) ≠ ["b", "a"] := by
  decide

/-- C3 (amended): when every row of the population is an OrderedDict, the
columns of the built schema appear in first-seen field order across the
rows; rows of any other mapping type contribute their fields in sorted key
order instead. -/
theorem c3_column_order_amended (dtp : String → Option String)
    (rows : List PRow) (vlt u : Bool)
    (hord : ∀ r ∈ rows, r.isOrderedDict = true) :
    (determine_types dtp rows vlt u).satypes.map Prod.fst = firstSeenFieldOrder rows := by
  have hst : (determine_types dtp rows vlt u).satypes.map Prod.fst =
      (collectColumns rows).map Prod.fst := by
    show ((collectColumns rows).map
        (fun kv => (kv.1, colSAType dtp vlt kv.2))).map Prod.fst = _
    rw [List.map_map]
    rfl
  rw [hst, collect_mapFst rows hord]

/-- C3 (witness for the amended theorem): two OrderedDict rows with
overlapping fields produce columns in first-seen order. -/
theorem c3_column_order_amended_witness :
    (determine_types (fun _ => none)
        [⟨[("x", PValue.vInt 1)], true⟩,
         ⟨[("y", PValue.vInt 2), ("x", PValue.vInt 3)], true⟩]
        false false).satypes.map Prod.fst =
      firstSeenFieldOrder
        [⟨[("x", PValue.vInt 1)], true⟩,
         ⟨[("y", PValue.vInt 2), ("x", PValue.vInt 3)], true⟩] :=
  c3_column_order_amended (fun _ => none) _ false false (by decide)

/-- C4: when the unbounded-text option is on, a text column is typed TEXT;
when it is off, a text column is typed as a bounded string whose declared
length is the maximum observed string length over the column values
(translation of lines 338-342 with the spec-modelled Type Unifier sample).
The statement holds for every external datetime parser dtp, and a column is
a text column only when unification under that parser lands on text, so
columns of date-parseable strings, which the program types as datetime, do
not satisfy the hypothesis. -/
theorem c4_text_column_types (dtp : String → Option String)
    (rows : List PRow) (vlt u : Bool) (col : String)
    (vs : List PValue)
    (hmem : (col, vs) ∈ (determine_types dtp rows vlt u).columns)
    (htext : kindOf (best_coercable dtp vs) = Kind.kText) :
    lookupStr (determine_types dtp rows vlt u).satypes col =
      some (if vlt then SAType.sText else SAType.sString (maxObservedLen vs)) := by
  have hcols : lookupStr (collectColumns rows) col = some vs :=
    lookupStr_eq_some_of_mem _ (collect_nodupFst rows) _ _ hmem
  have hls : lookupStr (determine_types dtp rows vlt u).satypes col =
      some (colSAType dtp vlt vs) := by
    have h2 := lookupStr_mapVals (colSAType dtp vlt) (collectColumns rows) col
    rw [hcols] at h2
    exact h2
  rw [hls]
  congr 1
  rw [colSAType, best_coercable_text dtp vs htext]
  cases vlt with
  | true => rfl
  | false =>
      show SAType.sString (longestStr (nonNull vs)).length = _
      rw [longestStr_length]
      rfl

/-- C4 (witness): a pure string column of maximal length three is typed
VARCHAR(3) with the option off. -/
theorem c4_text_column_types_witness :
    lookupStr (determine_types (fun _ => none)
        [⟨[("a", PValue.vStr "ab")], true⟩, ⟨[("a", PValue.vStr "xyz")], true⟩]
        false false).satypes "a" =
      some (if false then SAType.sText
            else SAType.sString (maxObservedLen [PValue.vStr "ab", PValue.vStr "xyz"])) :=
  c4_text_column_types (fun _ => none) _ false false "a"
    [PValue.vStr "ab", PValue.vStr "xyz"] (by decide) (by decide)

/-- C5 (code-bug evaluation): Table.table_index is read when naming an
unnamed table (line 188) but no statement in the source ever increments or
assigns it, so the naming state left by a construction equals the initial
one, and two successive Table constructions with table_name omitted (the
second running with the counter value the first left behind) both build a
table named generated_table0 instead of receiving distinct names. -/
theorem c5_table_counter_never_incremented :
    (genTableName Table.table_index none).1 = "generated_table0" ∧
    (genTableName (genTableName Table.table_index none).2 none).1 =
      "generated_table0" ∧
    (genTableName Table.table_index none).2 = Table.table_index ∧
    (Table.init [] (fun _ => none) (.inData [⟨[("a", PValue.vInt 1)], true⟩])
        none none false false none Table.table_index).toOption.map
      Table.table_name = some "generated_table0" ∧
    (Table.init [] (fun _ => none) (.inData [⟨[("a", PValue.vInt 1)], true⟩])
        none none false false none
        (genTableName Table.table_index none).2).toOption.map
      Table.table_name = some "generated_table0" := by
  decide

theorem attemptDecoders_none (funcs : List (String → Option PyData)) (s : String)
    (h : ∀ f ∈ funcs, f s = none ∨ (∃ t, f s = some (PyData.pstr t)) ∨
      f s = some (PyData.prows [])) :
    attemptDecoders funcs s = none := by
  induction funcs with
  | nil => rfl
  | cons f fs ih =>
      have hrest : ∀ g ∈ fs, g s = none ∨ (∃ t, g s = some (PyData.pstr t)) ∨
          g s = some (PyData.prows []) :=
        fun g hg => h g (List.mem_cons_of_mem f hg)
      rw [attemptDecoders]
      rcases h f (List.mem_cons_self f fs) with hf | ⟨t, hf⟩ | hf
      · rw [hf]
        exact ih hrest
      · rw [hf]
        exact ih hrest
      · rw [hf]
        exact ih hrest

theorem load_data_all_fail (funcs : List (String → Option PyData)) (s : String)
    (ha : attemptDecoders funcs s = none) :
    load_data funcs (.inStr s) =
      .error (if looks_like_filename s then TblErr.filenameNotFound
              else TblErr.unableToInterpret) := by
  rw [load_data, ha]
  cases hb : looks_like_filename s <;> simp [hb]

theorem init_error_of_load (funcs : List (String → Option PyData))
    (dtp : String → Option String) (input : PyInput)
    (tn dd : Option String) (vlt u : Bool) (pk : Option String) (idx : Nat)
    (e : TblErr) (h : load_data funcs input = .error e) :
    Table.init funcs dtp input tn dd vlt u pk idx = .error e := by
  rw [Table.init, h]

/-- The condition of claims about empty decode results: the decoded
population has no rows after all decode attempts (native empty data, or
text on which every decoder raises, returns a bare string, or returns an
empty population). -/
def decoded_empty (funcs : List (String → Option PyData)) : PyInput → Prop
  | .inData rows => rows = []
  | .inStr s => ∀ f ∈ funcs, f s = none ∨ (∃ t, f s = some (PyData.pstr t)) ∨
      f s = some (PyData.prows [])

/-- C7: an input whose decoded population has no rows makes Table
construction fail with a fatal error, and no Table value is produced on
that path. -/
theorem c7_empty_population (funcs : List (String → Option PyData))
    (dtp : String → Option String)
    (input : PyInput) (tn dd : Option String) (vlt u : Bool) (pk : Option String)
    (idx : Nat) (h : decoded_empty funcs input) :
    ∃ e, Table.init funcs dtp input tn dd vlt u pk idx = .error e := by
  cases input with
  | inData rows =>
      have hr : rows = [] := h
      subst hr
      exact ⟨.noData, rfl⟩
  | inStr s =>
      have ha : attemptDecoders funcs s = none := attemptDecoders_none funcs s h
      exact ⟨_, init_error_of_load funcs dtp (.inStr s) tn dd vlt u pk idx _
        (load_data_all_fail funcs s ha)⟩

/-- C7 (witness): an empty native population fails construction. -/
theorem c7_empty_population_witness :
    ∃ e, Table.init [] (fun _ => none) (.inData []) none none false false none 0 =
      .error e :=
  c7_empty_population [] (fun _ => none) (.inData []) none none false false none 0 rfl

/-- C8 (counterexample): the claim equates looking like a plausible filename
with containing no whitespace and no comma, but the anchored pattern of
line 127 also requires at least one character, and its dollar anchor also
matches just before one trailing newline.  The empty string contains
neither whitespace nor a comma, yet when every decoder fails on it the code
raises the uninterpretable-input error, not the file-not-found error the
claim predicts; conversely a name followed by a newline contains whitespace
yet raises the file-not-found error, not the uninterpretable-input error
the claim predicts. -/
theorem c8_filename_heuristic_counterexample :
    (("".toList.any (fun c => isPyWs c || c == ',')) = false ∧
      load_data [] (.inStr "") = .error .unableToInterpret) ∧
    (("abc\n".toList.any (fun c => isPyWs c || c == ',')) = true ∧
      load_data [] (.inStr "abc\n") = .error .filenameNotFound) := by
  decide

/-- C8 (amended): when no decoder can interpret the text, the file-not-found
error is raised exactly when the text matches the anchored filename pattern
(at least one character, none of them whitespace or a comma, allowing one
trailing newline that the dollar anchor tolerates); every other text,
including the empty string, raises the uninterpretable-input error. -/
theorem c8_filename_heuristic_amended (funcs : List (String → Option PyData))
    (s : String)
    (h : ∀ f ∈ funcs, f s = none ∨ (∃ t, f s = some (PyData.pstr t)) ∨
      f s = some (PyData.prows [])) :
    (looks_like_filename s = true →
      load_data funcs (.inStr s) = .error .filenameNotFound) ∧
    (looks_like_filename s = false →
      load_data funcs (.inStr s) = .error .unableToInterpret) := by
  have hl := load_data_all_fail funcs s (attemptDecoders_none funcs s h)
  constructor
  · intro hb
    rw [hl, hb]
    rfl
  · intro hb
    rw [hl, hb]
    rfl

/-- C8 (witness for the amended theorem): a filename-shaped string on which
every decoder fails raises the file-not-found error. -/
theorem c8_filename_heuristic_amended_witness :
    (looks_like_filename "somefile.txt" = true →
      load_data [] (.inStr "somefile.txt") = .error .filenameNotFound) ∧
    (looks_like_filename "somefile.txt" = false →
      load_data [] (.inStr "somefile.txt") = .error .unableToInterpret) :=
  c8_filename_heuristic_amended [] "somefile.txt"
    (fun f hf => absurd hf (List.not_mem_nil f))

theorem dialect_unknown (t : Table) (d : String) (hne : d ≠ "")
    (hnm : mock_engines.contains d = false) :
    t.dialect (some d) = .error (.unknownDialect d) := by
  have hnm2 : d ∉ mock_engines := fun hm => by
    rw [(contains_iff_mem_str mock_engines d).mpr hm] at hnm
    cases hnm
  simp [Table.dialect, hne, hnm2]

theorem dialect_ok (t : Table) (d : String) (hne : d ≠ "")
    (hm : mock_engines.contains d = true) :
    t.dialect (some d) = .ok d := by
  have hm2 : d ∈ mock_engines := (contains_iff_mem_str mock_engines d).mp hm
  simp [Table.dialect, hne, hm2]

theorem ops_unknown_dialect (t : Table) (dp : String → Option String) (d : String)
    (ins : Bool) (hne : d ≠ "") (hnm : mock_engines.contains d = false) :
    t.ddl (some d) = .error (.unknownDialect d) ∧
    Table.inserts dp t (some d) = .error (.unknownDialect d) ∧
    Table.sql dp t (some d) ins = .error (.unknownDialect d) := by
  have hd := dialect_unknown t d hne hnm
  refine ⟨?_, ?_, ?_⟩
  · rw [Table.ddl, hd]
  · rw [Table.inserts, hd]
  · rw [Table.sql, Table.ddl, hd]

/-- C6 (counterexample): the claim places the unsupported-dialect error
before any schema inference, but __init__ stores the dialect without
validation; construction with an unknown default dialect succeeds and the
full column typing is computed, the error surfacing only later. -/
theorem c6_dialect_checked_late_counterexample :
    mock_engines.contains "nonsense" = false ∧
    (Table.init [] (fun _ => none) (.inData [⟨[("a", PValue.vInt 1)], true⟩])
        (some "t") (some "nonsense") false false none 0).toOption.map
      (fun t => t.info.satypes) =
      some [("a", SAType.sInteger)] := by
  decide

/-- C6 (amended): a dialect outside the supported set raises the
not-implemented error when SQL emission (ddl, inserts or sql) is requested;
Table construction and type inference complete without consulting the
dialect. -/
theorem c6_dialect_error_at_emission (t : Table) (dp : String → Option String)
    (d : String) (ins : Bool) (hne : d ≠ "")
    (hnm : mock_engines.contains d = false) :
    t.ddl (some d) = .error (.unknownDialect d) ∧
    Table.inserts dp t (some d) = .error (.unknownDialect d) ∧
    Table.sql dp t (some d) ins = .error (.unknownDialect d) :=
  ops_unknown_dialect t dp d ins hne hnm

/-- C6 (witness for the amended theorem): the three emission entry points
reject the dialect nonsense on a concrete table. -/
theorem c6_dialect_error_at_emission_witness :
    (Table.mk "t" [] none (determine_types (fun _ => none) [] false false)).ddl (some "nonsense") =
      .error (.unknownDialect "nonsense") ∧
    Table.inserts (fun _ => none) (Table.mk "t" [] none (determine_types (fun _ => none) [] false false))
      (some "nonsense") = .error (.unknownDialect "nonsense") ∧
    Table.sql (fun _ => none) (Table.mk "t" [] none (determine_types (fun _ => none) [] false false))
      (some "nonsense") false = .error (.unknownDialect "nonsense") :=
  c6_dialect_error_at_emission _ (fun _ => none) "nonsense" false (by decide) (by decide)

/-- C9: per rendered INSERT value, an integer or decimal column value is
emitted as the bare Python rendering of a number, a boolean column value
that coerces to a boolean is emitted as the bare True or False token, and
text and datetime column values are wrapped in single quotes, with every
embedded single quote of a text value doubled (translation of
lines 262-278 and the str() applied at line 285). -/
theorem c9_insert_literal_quoting (dp : String → Option String) (k : Kind)
    (d : PValue) (s : String) (h : prep_datum dp k d = some s) :
    (k = Kind.kInt → ∃ n, s = pyStr (PValue.vInt n)) ∧
    (k = Kind.kDec → ∃ m sc, s = pyStr (PValue.vDec m sc)) ∧
    (k = Kind.kBool → ∀ b, coerce_to_specific dp d = PValue.vBool b →
      s = pyStr (PValue.vBool b)) ∧
    (k = Kind.kDateTime → ∃ r, dateutil_parse dp d = some r ∧
      s = squote ++ r ++ squote) ∧
    (k = Kind.kText → s = squote ++ doubleQuotes (pyStr d) ++ squote) := by
  refine ⟨?_, ?_, ?_, ?_, ?_⟩ <;> intro hk <;> subst hk
  · rw [prep_datum, convert_datum] at h
    rcases Option.map_eq_some'.mp h with ⟨v, hv, hq⟩
    rcases Option.map_eq_some'.mp hv with ⟨n, _, he⟩
    subst he
    exact ⟨n, hq.symm⟩
  · rw [prep_datum, convert_datum] at h
    rcases Option.map_eq_some'.mp h with ⟨v, hv, hq⟩
    rcases Option.map_eq_some'.mp hv with ⟨p, _, he⟩
    subst he
    exact ⟨p.1, p.2, hq.symm⟩
  · intro b hb
    rw [prep_datum, convert_datum, hb] at h
    have hs : quote_datum (PValue.vBool b) = s := by
      injection h
    exact hs.symm
  · rw [prep_datum, convert_datum] at h
    rcases Option.map_eq_some'.mp h with ⟨v, hv, hq⟩
    rcases Option.map_eq_some'.mp hv with ⟨r, hr, he⟩
    subst he
    exact ⟨r, hr, hq.symm⟩
  · rw [prep_datum, convert_datum] at h
    have hs : quote_datum (PValue.vStr (pyStr d)) = s := by
      injection h
    exact hs.symm

/-- C9 (witness): a text value containing a single quote is emitted wrapped
in single quotes with the embedded quote doubled. -/
theorem c9_insert_literal_quoting_witness :
    squote ++ (squote ++ squote ++ "x") ++ squote =
      squote ++ doubleQuotes (pyStr (PValue.vStr (squote ++ "x"))) ++ squote :=
  (c9_insert_literal_quoting (fun x => some x) Kind.kText (PValue.vStr (squote ++ "x"))
      (squote ++ (squote ++ squote ++ "x") ++ squote) (by decide)).2.2.2.2 rfl

theorem mapM_loop_error {α β : Type} (f : α → Except TblErr β) (e : TblErr) :
    ∀ (l : List α) (acc : List β), List.mapM.loop f l acc = .error e →
      ∃ a ∈ l, f a = .error e := by
  intro l
  induction l with
  | nil =>
      intro acc h
      rw [List.mapM.loop] at h
      cases h
  | cons a as ih =>
      intro acc h
      rw [List.mapM.loop] at h
      cases hf : f a with
      | error e2 =>
          rw [hf] at h
          have he : e2 = e := by
            simp only [bind, Except.bind] at h
            injection h
          exact ⟨a, List.mem_cons_self a as, by rw [hf, he]⟩
      | ok b =>
          rw [hf] at h
          simp only [bind, Except.bind] at h
          rcases ih (b :: acc) h with ⟨x, hx, hfx⟩
          exact ⟨x, List.mem_cons_of_mem a hx, hfx⟩

theorem mapM_error_mem {α β : Type} (f : α → Except TblErr β) (l : List α)
    (e : TblErr) (h : l.mapM f = .error e) : ∃ a ∈ l, f a = .error e := by
  rw [List.mapM] at h
  exact mapM_loop_error f e l [] h

theorem renderRow_error (dp : String → Option String) (t : Table) (r : PRow)
    (e : TblErr) (h : Table.renderRow dp t r = .error e) : e = TblErr.convError := by
  rw [Table.renderRow] at h
  cases hv : r.fields.mapM (fun kv =>
      match lookupStr t.info.pytypes kv.1 with
      | none => Except.error TblErr.convError
      | some k =>
          match prep_datum dp k kv.2 with
          | none => Except.error TblErr.convError
          | some s => Except.ok s) with
  | error e2 =>
      rw [hv] at h
      have he : e2 = e := by injection h
      subst he
      rcases mapM_error_mem _ _ _ hv with ⟨kv, _, hkv⟩
      cases hlk : lookupStr t.info.pytypes kv.1 with
      | none =>
          rw [hlk] at hkv
          have : TblErr.convError = e2 := by injection hkv
          exact this.symm
      | some k =>
          rw [hlk] at hkv
          have hkv2 : (match prep_datum dp k kv.2 with
              | none => Except.error TblErr.convError
              | some s => Except.ok s) = Except.error e2 := hkv
          cases hp : prep_datum dp k kv.2 with
          | none =>
              rw [hp] at hkv2
              have : TblErr.convError = e2 := by injection hkv2
              exact this.symm
          | some s2 =>
              rw [hp] at hkv2
              cases hkv2
  | ok vs =>
      rw [hv] at h
      cases h

theorem inserts_not_unknown (dp : String → Option String) (t : Table) (d : String)
    (hok : t.dialect (some d) = .ok d) :
    ∀ e2, Table.inserts dp t (some d) ≠ .error (.unknownDialect e2) := by
  intro e2 h
  rw [Table.inserts, hok] at h
  rcases mapM_error_mem _ _ _ h with ⟨r, _, hre⟩
  have := renderRow_error dp t r _ hre
  cases this

theorem ddl_ok_of_dialect (t : Table) (d : String)
    (hok : t.dialect (some d) = .ok d) : (t.ddl (some d)).isOk = true := by
  rw [Table.ddl, hok]
  rfl

theorem sql_not_unknown (dp : String → Option String) (t : Table) (d : String)
    (ins : Bool) (hok : t.dialect (some d) = .ok d) :
    ∀ e2, Table.sql dp t (some d) ins ≠ .error (.unknownDialect e2) := by
  intro e2 h
  have hddl : t.ddl (some d) = .ok (t.dropper d ++ ";\n" ++ t.createStmt ++ ";") := by
    rw [Table.ddl, hok]
  rw [Table.sql, hddl] at h
  cases ins with
  | false => cases h
  | true =>
      cases hins : Table.inserts dp t (some d) with
      | error e3 =>
          rw [hins] at h
          have he : e3 = TblErr.unknownDialect e2 := by injection h
          exact inserts_not_unknown dp t d hok e2 (by rw [hins, he])
      | ok rows =>
          rw [hins] at h
          cases h

/-- C10: of the eight enumerated dialect names, exactly the five with mock
engines are accepted by ddl, inserts and sql; every other enumerated name,
including sybase despite its DROP-IF-EXISTS support, makes all three
operations raise the not-implemented error. -/
theorem c10_supported_dialects (t : Table) (dp : String → Option String)
    (d : String) (hd : d ∈ dialect_names) :
    (mock_engines.contains d = true ↔
      d ∈ ["postgresql", "sqlite", "mysql", "oracle", "mssql"]) ∧
    (supports_if_exists "sybase" = true ∧ mock_engines.contains "sybase" = false) ∧
    (mock_engines.contains d = false →
      t.ddl (some d) = .error (.unknownDialect d) ∧
      Table.inserts dp t (some d) = .error (.unknownDialect d) ∧
      Table.sql dp t (some d) true = .error (.unknownDialect d)) ∧
    (mock_engines.contains d = true →
      (t.ddl (some d)).isOk = true ∧
      (∀ e, Table.inserts dp t (some d) ≠ .error (.unknownDialect e)) ∧
      (∀ e, Table.sql dp t (some d) true ≠ .error (.unknownDialect e))) := by
  have hne : d ≠ "" := by
    have hall : ∀ x ∈ dialect_names, x ≠ "" := by decide
    exact hall d hd
  refine ⟨⟨fun hc => (contains_iff_mem_str _ _).mp hc,
      fun hm => (contains_iff_mem_str _ _).mpr hm⟩, by decide, ?_, ?_⟩
  · intro hnm
    exact ops_unknown_dialect t dp d true hne hnm
  · intro hm
    have hok := dialect_ok t d hne hm
    exact ⟨ddl_ok_of_dialect t d hok, inserts_not_unknown dp t d hok,
      sql_not_unknown dp t d true hok⟩

/-- C10 (witness): sybase is enumerated and supports DROP IF EXISTS, yet the
emission operations reject it on a concrete table. -/
theorem c10_supported_dialects_witness :
    (mock_engines.contains "sybase" = true ↔
      "sybase" ∈ ["postgresql", "sqlite", "mysql", "oracle", "mssql"]) ∧
    (supports_if_exists "sybase" = true ∧ mock_engines.contains "sybase" = false) ∧
    (mock_engines.contains "sybase" = false →
      (Table.mk "t" [] none (determine_types (fun _ => none) [] false false)).ddl (some "sybase") =
        .error (.unknownDialect "sybase") ∧
      Table.inserts (fun _ => none)
        (Table.mk "t" [] none (determine_types (fun _ => none) [] false false)) (some "sybase") =
        .error (.unknownDialect "sybase") ∧
      Table.sql (fun _ => none)
        (Table.mk "t" [] none (determine_types (fun _ => none) [] false false)) (some "sybase") true =
        .error (.unknownDialect "sybase")) ∧
    (mock_engines.contains "sybase" = true →
      ((Table.mk "t" [] none (determine_types (fun _ => none) [] false false)).ddl
        (some "sybase")).isOk = true ∧
      (∀ e, Table.inserts (fun _ => none)
        (Table.mk "t" [] none (determine_types (fun _ => none) [] false false)) (some "sybase") ≠
          .error (.unknownDialect e)) ∧
      (∀ e, Table.sql (fun _ => none)
        (Table.mk "t" [] none (determine_types (fun _ => none) [] false false)) (some "sybase") true ≠
          .error (.unknownDialect e))) :=
  c10_supported_dialects _ (fun _ => none) "sybase" (by decide)
